import Mathlib

/-!
Shallow embedding of the CatBoost document-importance evaluator
(`catboost/libs/documents_importance/docs_importance_helpers.cpp`).

Vectors of `double` are modelled as functions `Nat → ℚ` (or `List ℚ` where the
code materialises a fixed-size vector); `operator[]` on lists becomes `List.getD`
with the type's zero default, and in-place element writes become the pointwise
override `upd`.  The external collaborators (`BuildIndicesForBinTree`,
`EvaluateDerivatives`) enter as parameters: per-tree evaluation-pool leaf
indices `evalLeafIndices` and a derivative functional `evalDers`.  The `Sort`
call (an unstable comparison sort whose tie-break is implementation defined)
is modelled by a deterministic insertion sort over the same strict comparator.
-/

namespace CatBoostDocImportance

/-- Pointwise write `f[i] := v` on a vector modelled as a function. -/
def upd (f : Nat → ℚ) (i : Nat) (v : ℚ) : Nat → ℚ :=
  fun j => if j = i then v else f j

/-- `EUpdateType` from the update-method options. -/
inductive EUpdateType where
  | AllPoints : EUpdateType
  | TopKLeaves : EUpdateType
  deriving DecidableEq

/-- `TUpdateMethod`: the leaf-recomputation policy and its top-k width. -/
structure TUpdateMethod where
  updateType : EUpdateType
  topSize : Nat
  deriving DecidableEq

/-- Per-tree statistics record (`TTreeStatistics`).  All tables are indexed as
in the C++ code: `leafValues[iteration][leaf]`, `leafIndices[doc]`,
`leavesDocId[leaf]` (list of train document ids), the three formula tables
`[iteration][doc]` resp. `[iteration][leaf]`. -/
structure TTreeStatistics where
  leafCount : Nat
  leafValues : List (List ℚ)
  leafIndices : List Nat
  leavesDocId : List (List Nat)
  formulaNumeratorMultiplier : List (List ℚ)
  formulaNumeratorAdding : List (List ℚ)
  formulaDenominators : List (List ℚ)
  deriving Inhabited

/-- The evaluator state that `TDocumentImportancesEvaluator` carries into the
computation: model tree sizes, per-tree statistics, counts and options. -/
structure TDocumentImportancesEvaluator where
  treeCount : Nat
  docCount : Nat
  leavesEstimationIterations : Nat
  learningRate : ℚ
  updateMethod : TUpdateMethod
  treeSizes : List Nat
  treesStatistics : List TTreeStatistics

namespace TDocumentImportancesEvaluator

variable (ev : TDocumentImportancesEvaluator)

/-- `TreesStatistics[treeId]`. -/
def statsOf (treeId : Nat) : TTreeStatistics :=
  ev.treesStatistics.getD treeId default

/-- `1 << Model.ObliviousTrees.TreeSizes[treeId]`. -/
def leafCountOf (treeId : Nat) : Nat :=
  2 ^ (ev.treeSizes.getD treeId 0)

/-- The `leafJacobians` accumulator of `GetLeafIdToUpdate`:
`leafJacobians[leafIndices[docId]] += Abs(jacobian[docId])` over all train docs. -/
def leafJacobians (treeId : Nat) (jacobian : Nat → ℚ) : Nat → ℚ :=
  (List.range ev.docCount).foldl
    (fun lj docId =>
      let leafId := (ev.statsOf treeId).leafIndices.getD docId 0
      upd lj leafId (lj leafId + |jacobian docId|))
    (fun _ => 0)

end TDocumentImportancesEvaluator

/-- Insertion step of the deterministic descending sort modelling `Sort` with
comparator `leafJacobians[a] > leafJacobians[b]`. -/
def insertByKeyDesc (key : Nat → ℚ) (x : Nat) : List Nat → List Nat
  | [] => [x]
  | y :: ys => if key y ≤ key x then x :: y :: ys else y :: insertByKeyDesc key x ys

/-- Deterministic descending sort by `key` (models the `Sort` library call). -/
def sortByKeyDesc (key : Nat → ℚ) : List Nat → List Nat
  | [] => []
  | x :: xs => insertByKeyDesc key x (sortByKeyDesc key xs)

namespace TDocumentImportancesEvaluator

variable (ev : TDocumentImportancesEvaluator)

/-- `GetLeafIdToUpdate`: `AllPoints` yields `iota(leafCount)`; `TopKLeaves`
ranks leaves by aggregate absolute jacobian mass (descending) and keeps the
first `Min(TopSize, leafCount)`. -/
def getLeafIdToUpdate (treeId : Nat) (jacobian : Nat → ℚ) : List Nat :=
  let leafCount := ev.leafCountOf treeId
  match ev.updateMethod.updateType with
  | EUpdateType.AllPoints => List.range leafCount
  | EUpdateType.TopKLeaves =>
      let lj := ev.leafJacobians treeId jacobian
      let orderedLeafIndices := sortByKeyDesc lj (List.range leafCount)
      orderedLeafIndices.take (min ev.updateMethod.topSize leafCount)

/-- One selected-leaf step of `UpdateLeavesDerivativesForTree`: accumulate
`formulaNumeratorMultiplier[doc] * jacobian[doc]` over the leaf's doc bucket,
add `formulaNumeratorAdding[removedDocId]` when the leaf is the removed
document's leaf, then scale by `-LearningRate / formulaDenominators[leafId]`. -/
def leafDerivativeStep (treeId it removedDocId : Nat) (jacobian : Nat → ℚ)
    (d : Nat → ℚ) (leafId : Nat) : Nat → ℚ :=
  let ts := ev.statsOf treeId
  let mult := ts.formulaNumeratorMultiplier.getD it []
  let addN := ts.formulaNumeratorAdding.getD it []
  let denom := ts.formulaDenominators.getD it []
  let removedDocLeafId := ts.leafIndices.getD removedDocId 0
  let s := (ts.leavesDocId.getD leafId []).foldl
    (fun acc docId => acc + mult.getD docId 0 * jacobian docId) (d leafId)
  let s := if leafId = removedDocLeafId then s + addN.getD removedDocId 0 else s
  upd d leafId (s * (-ev.learningRate / denom.getD leafId 0))

/-- `UpdateLeavesDerivativesForTree`: zero-fill the per-iteration leaf
derivative vector, run the selected-leaf loop, and apply the removed-document
correction when its leaf was not among the selected ones. -/
def updateLeavesDerivativesForTree (leafIdToUpdate : List Nat)
    (removedDocId : Nat) (jacobian : Nat → ℚ) (treeId it : Nat) : Nat → ℚ :=
  let ts := ev.statsOf treeId
  let mult := ts.formulaNumeratorMultiplier.getD it []
  let addN := ts.formulaNumeratorAdding.getD it []
  let denom := ts.formulaDenominators.getD it []
  let removedDocLeafId := ts.leafIndices.getD removedDocId 0
  let d := leafIdToUpdate.foldl (ev.leafDerivativeStep treeId it removedDocId jacobian)
    (fun _ => 0)
  if removedDocLeafId ∈ leafIdToUpdate then d
  else
    upd d removedDocLeafId
      ((d removedDocLeafId + jacobian removedDocId * mult.getD removedDocId 0
          + addN.getD removedDocId 0)
        * (-ev.learningRate / denom.getD removedDocLeafId 0))

/-- The jacobian-propagation step of `UpdateLeavesDerivatives` (lines after
the call to `UpdateLeavesDerivativesForTree`): for every selected leaf add its
derivative to every document of its bucket, and when the removed document's
leaf was not selected add that leaf's derivative to the removed document
alone. -/
def jacobianUpdate (treeId : Nat) (leafIdToUpdate : List Nat)
    (removedDocId : Nat) (dv : Nat → ℚ) (jacobian : Nat → ℚ) : Nat → ℚ :=
  let ts := ev.statsOf treeId
  let j := leafIdToUpdate.foldl
    (fun j leafId =>
      (ts.leavesDocId.getD leafId []).foldl
        (fun j docId => upd j docId (j docId + dv leafId)) j)
    jacobian
  if ts.leafIndices.getD removedDocId 0 ∈ leafIdToUpdate then j
  else
    upd j removedDocId (j removedDocId + dv (ts.leafIndices.getD removedDocId 0))

/-- One (tree, iteration) step of `UpdateLeavesDerivatives`, returning the
leaf-derivative vector of the iteration together with the updated jacobian. -/
def propagateStep (removedDocId treeId it : Nat) (jacobian : Nat → ℚ) :
    (Nat → ℚ) × (Nat → ℚ) :=
  let leafIdToUpdate := ev.getLeafIdToUpdate treeId jacobian
  let dv := ev.updateLeavesDerivativesForTree leafIdToUpdate removedDocId jacobian treeId it
  (dv, ev.jacobianUpdate treeId leafIdToUpdate removedDocId dv jacobian)

/-- `UpdateLeavesDerivatives`: iterate over trees and leaves-estimation
iterations in order, threading the jacobian (initially zero), collecting
`leafDerivatives[tree][iteration]`.  Returns the collected tensor and the
final jacobian. -/
def updateLeavesDerivatives (removedDocId : Nat) :
    (List (List (Nat → ℚ))) × (Nat → ℚ) :=
  (List.range ev.treeCount).foldl
    (fun acc treeId =>
      let inner := (List.range ev.leavesEstimationIterations).foldl
        (fun acc2 it =>
          let step := ev.propagateStep removedDocId treeId it acc2.2
          (acc2.1 ++ [step.1], step.2))
        (([] : List (Nat → ℚ)), acc.2)
      (acc.1 ++ [inner.1], inner.2))
    (([] : List (List (Nat → ℚ))), fun _ => 0)

/-- The `predictedDerivatives` accumulation of
`GetDocumentImportancesForOneTrainDoc`:
`predictedDerivatives[docId] += leafDerivatives[treeId][it][leafIndices[treeId][docId]]`
over all trees and iterations. -/
def predictedDerivatives (leafDerivatives : List (List (Nat → ℚ)))
    (evalLeafIndices : List (List Nat)) (evalDocCount : Nat) : Nat → ℚ :=
  (List.range ev.treeCount).foldl
    (fun pd treeId =>
      (List.range ev.leavesEstimationIterations).foldl
        (fun pd2 it =>
          (List.range evalDocCount).foldl
            (fun pd3 docId =>
              upd pd3 docId (pd3 docId +
                ((leafDerivatives.getD treeId []).getD it (fun _ => 0))
                  ((evalLeafIndices.getD treeId []).getD docId 0)))
            pd2)
        pd)
    (fun _ => 0)

/-- `GetDocumentImportancesForOneTrainDoc`: one row of the output matrix,
`FinalFirstDerivatives[docId] * predictedDerivatives[docId]`. -/
def getDocumentImportancesForOneTrainDoc (leafDerivatives : List (List (Nat → ℚ)))
    (evalLeafIndices : List (List Nat)) (evalDocCount : Nat)
    (finalFirstDerivatives : Nat → ℚ) : List ℚ :=
  let pd := ev.predictedDerivatives leafDerivatives evalLeafIndices evalDocCount
  (List.range evalDocCount).map (fun docId => finalFirstDerivatives docId * pd docId)

/-- The `finalApproxes` accumulation of `UpdateFinalFirstDerivatives`:
`finalApproxes[docId] += LeafValues[it][leafIndices[treeId][docId]]`. -/
def finalApproxes (evalLeafIndices : List (List Nat)) (evalDocCount : Nat) :
    Nat → ℚ :=
  (List.range ev.treeCount).foldl
    (fun fa treeId =>
      (List.range ev.leavesEstimationIterations).foldl
        (fun fa2 it =>
          (List.range evalDocCount).foldl
            (fun fa3 docId =>
              upd fa3 docId (fa3 docId +
                (((ev.statsOf treeId).leafValues.getD it []).getD
                  ((evalLeafIndices.getD treeId []).getD docId 0) 0)))
            fa2)
        fa)
    (fun _ => 0)

/-- `UpdateFinalFirstDerivatives`: the external `EvaluateDerivatives` call
(parameter `evalDers`) applied to the accumulated final approxes. -/
def updateFinalFirstDerivatives (evalLeafIndices : List (List Nat))
    (evalDocCount : Nat) (evalDers : (Nat → ℚ) → (Nat → ℚ)) : Nat → ℚ :=
  evalDers (ev.finalApproxes evalLeafIndices evalDocCount)

/-- `GetDocumentImportances`: row `removedDocId` of the matrix is produced by
running the propagator for that train document and folding the resulting leaf
derivatives into importances against the final first derivatives. -/
def getDocumentImportances (evalLeafIndices : List (List Nat))
    (evalDocCount : Nat) (evalDers : (Nat → ℚ) → (Nat → ℚ)) : List (List ℚ) :=
  let finalFirstDerivatives := ev.updateFinalFirstDerivatives evalLeafIndices evalDocCount evalDers
  (List.range ev.docCount).map
    (fun removedDocId =>
      ev.getDocumentImportancesForOneTrainDoc
        (ev.updateLeavesDerivatives removedDocId).1
        evalLeafIndices evalDocCount finalFirstDerivatives)

/-- Denominators read by the divisions of `UpdateLeavesDerivativesForTree`
for one (tree, iteration) step, in execution order: one per selected leaf,
plus the removed document's leaf's denominator when the correction fires. -/
def denominatorsUsedForTree (leafIdToUpdate : List Nat)
    (removedDocId treeId it : Nat) : List ℚ :=
  let ts := ev.statsOf treeId
  let denom := ts.formulaDenominators.getD it []
  let removedDocLeafId := ts.leafIndices.getD removedDocId 0
  leafIdToUpdate.map (fun leafId => denom.getD leafId 0) ++
    (if removedDocLeafId ∈ leafIdToUpdate then [] else [denom.getD removedDocLeafId 0])

/-- All denominators read by divisions over the whole run of
`UpdateLeavesDerivatives` for one removed document, threading the jacobian
exactly as the computation does. -/
def denominatorsUsed (removedDocId : Nat) : List ℚ :=
  ((List.range ev.treeCount).foldl
    (fun acc treeId =>
      (List.range ev.leavesEstimationIterations).foldl
        (fun acc2 it =>
          let leafIdToUpdate := ev.getLeafIdToUpdate treeId acc2.2
          (acc2.1 ++ ev.denominatorsUsedForTree leafIdToUpdate removedDocId treeId it,
            (ev.propagateStep removedDocId treeId it acc2.2).2))
        acc)
    (([] : List ℚ), fun _ => 0)).1

end TDocumentImportancesEvaluator

/-! Concrete example data used by the witness theorems: one depth-1 tree,
two train documents (one per leaf), one leaves-estimation iteration. -/

/-- Example per-tree statistics: two leaves, doc 0 in leaf 0, doc 1 in leaf 1. -/
def exStats : TTreeStatistics :=
  ⟨2, [[1, 2]], [0, 1], [[0], [1]], [[1, 1]], [[1, 1]], [[2, 3]]⟩

/-- Example evaluator with the AllPoints update policy. -/
def exEv : TDocumentImportancesEvaluator :=
  ⟨1, 2, 1, 1, ⟨EUpdateType.AllPoints, 1⟩, [1], [exStats]⟩

/-- Example evaluator with the TopKLeaves update policy and TopSize 1. -/
def exEvTopK : TDocumentImportancesEvaluator :=
  ⟨1, 2, 1, 1, ⟨EUpdateType.TopKLeaves, 1⟩, [1], [exStats]⟩

/-- Example evaluator with zero leaves-estimation iterations. -/
def exEv0 : TDocumentImportancesEvaluator :=
  ⟨1, 2, 0, 1, ⟨EUpdateType.AllPoints, 1⟩, [1], [exStats]⟩

/-- Example evaluator with the TopKLeaves policy at full width (TopSize 2). -/
def exEvTopKFull : TDocumentImportancesEvaluator :=
  ⟨1, 2, 1, 1, ⟨EUpdateType.TopKLeaves, 2⟩, [1], [exStats]⟩

/-! Basic lemmas about the pointwise-update and fold combinators. -/

@[simp] lemma upd_same (f : Nat → ℚ) (i : Nat) (v : ℚ) : upd f i v i = v := by
  simp [upd]

lemma upd_ne (f : Nat → ℚ) {i j : Nat} (v : ℚ) (h : j ≠ i) : upd f i v j = f j := by
  simp [upd, h]

lemma upd_apply (f : Nat → ℚ) (i j : Nat) (v : ℚ) :
    upd f i v j = if j = i then v else f j := rfl

lemma foldl_add_map_sum (l : List Nat) (g : Nat → ℚ) (a : ℚ) :
    l.foldl (fun acc x => acc + g x) a = a + (l.map g).sum := by
  induction l generalizing a with
  | nil => simp
  | cons x xs ih => simp [List.foldl_cons, ih (a + g x)]; ring

lemma foldl_perm_of_comm {α β : Type} (f : β → α → β)
    (h : ∀ b a₁ a₂, f (f b a₁) a₂ = f (f b a₂) a₁)
    {l₁ l₂ : List α} (p : List.Perm l₁ l₂) (b : β) :
    l₁.foldl f b = l₂.foldl f b := by
  induction p generalizing b with
  | nil => rfl
  | cons x p ih => simp only [List.foldl_cons]; exact ih _
  | swap x y l => simp only [List.foldl_cons]; rw [h]
  | trans p₁ p₂ ih₁ ih₂ => exact (ih₁ b).trans (ih₂ b)

lemma foldl_range_add (step : (Nat → ℚ) → Nat → (Nat → ℚ)) (h : Nat → Nat → ℚ)
    (H : ∀ f k, step f k = fun d => f d + h k d) :
    ∀ (m : Nat) (f0 : Nat → ℚ),
      (List.range m).foldl step f0 = fun d => f0 d + ∑ k ∈ Finset.range m, h k d := by
  intro m
  induction m with
  | zero => intro f0; funext d; simp
  | succ m ih =>
      intro f0
      rw [List.range_succ, List.foldl_append, ih f0]
      simp only [List.foldl_cons, List.foldl_nil]
      rw [H]
      funext d
      simp [Finset.sum_range_succ]
      ring

/-! Correctness of the deterministic descending sort. -/

lemma insertByKeyDesc_perm (key : Nat → ℚ) (x : Nat) (l : List Nat) :
    List.Perm (insertByKeyDesc key x l) (x :: l) := by
  induction l with
  | nil => exact List.Perm.refl _
  | cons y ys ih =>
      by_cases h : key y ≤ key x
      · simp [insertByKeyDesc, h]
      · simp only [insertByKeyDesc, if_neg h]
        exact (ih.cons y).trans (List.Perm.swap x y ys)

lemma sortByKeyDesc_perm (key : Nat → ℚ) (l : List Nat) :
    List.Perm (sortByKeyDesc key l) l := by
  induction l with
  | nil => exact List.Perm.refl _
  | cons x xs ih =>
      exact (insertByKeyDesc_perm key x (sortByKeyDesc key xs)).trans (ih.cons x)

lemma insertByKeyDesc_pairwise (key : Nat → ℚ) (x : Nat) (l : List Nat)
    (h : List.Pairwise (fun a b => key b ≤ key a) l) :
    List.Pairwise (fun a b => key b ≤ key a) (insertByKeyDesc key x l) := by
  induction l with
  | nil => simp [insertByKeyDesc]
  | cons y ys ih =>
      rcases List.pairwise_cons.mp h with ⟨hy, hys⟩
      by_cases hc : key y ≤ key x
      · simp only [insertByKeyDesc, if_pos hc]
        refine List.pairwise_cons.mpr ⟨?_, h⟩
        intro z hz
        rcases List.mem_cons.mp hz with rfl | hz
        · exact hc
        · exact (hy z hz).trans hc
      · simp only [insertByKeyDesc, if_neg hc]
        refine List.pairwise_cons.mpr ⟨?_, ih hys⟩
        intro z hz
        have hz' := (insertByKeyDesc_perm key x ys).mem_iff.mp hz
        rcases List.mem_cons.mp hz' with rfl | hz'
        · exact le_of_lt (lt_of_not_le hc)
        · exact hy z hz'

lemma sortByKeyDesc_pairwise (key : Nat → ℚ) (l : List Nat) :
    List.Pairwise (fun a b => key b ≤ key a) (sortByKeyDesc key l) := by
  induction l with
  | nil => simp [sortByKeyDesc]
  | cons x xs ih => exact insertByKeyDesc_pairwise key x _ ih

/-! Characterisation of the per-tree leaf-derivative computation. -/

namespace TDocumentImportancesEvaluator

variable (ev : TDocumentImportancesEvaluator)

lemma leafDerivativeStep_eq (treeId it removedDocId : Nat) (jacobian : Nat → ℚ)
    (d : Nat → ℚ) (leafId : Nat) :
    ev.leafDerivativeStep treeId it removedDocId jacobian d leafId =
      upd d leafId
        ((d leafId
          + (((ev.statsOf treeId).leavesDocId.getD leafId []).map
              (fun docId =>
                ((ev.statsOf treeId).formulaNumeratorMultiplier.getD it []).getD docId 0
                  * jacobian docId)).sum
          + (if leafId = (ev.statsOf treeId).leafIndices.getD removedDocId 0
              then ((ev.statsOf treeId).formulaNumeratorAdding.getD it []).getD removedDocId 0
              else 0))
         * (-ev.learningRate
             / ((ev.statsOf treeId).formulaDenominators.getD it []).getD leafId 0)) := by
  simp only [leafDerivativeStep]
  rw [foldl_add_map_sum]
  by_cases hc : leafId = (ev.statsOf treeId).leafIndices.getD removedDocId 0
  · rw [if_pos hc, if_pos hc]
  · rw [if_neg hc, if_neg hc, add_zero]

lemma leafDerivativeStep_apply_ne (treeId it removedDocId : Nat) (jacobian : Nat → ℚ)
    (d : Nat → ℚ) {leafId L : Nat} (hne : L ≠ leafId) :
    ev.leafDerivativeStep treeId it removedDocId jacobian d leafId L = d L := by
  rw [leafDerivativeStep_eq]
  exact upd_ne _ _ hne

lemma foldl_leafDerivativeStep_not_mem (treeId it removedDocId : Nat)
    (jacobian : Nat → ℚ) {lids : List Nat} {L : Nat} (hL : L ∉ lids) (d : Nat → ℚ) :
    (lids.foldl (ev.leafDerivativeStep treeId it removedDocId jacobian) d) L = d L := by
  induction lids generalizing d with
  | nil => rfl
  | cons x xs ih =>
      have hne : L ≠ x := fun h => hL (h ▸ List.mem_cons_self x xs)
      have hL' : L ∉ xs := fun h => hL (List.mem_cons_of_mem x h)
      rw [List.foldl_cons, ih hL']
      exact ev.leafDerivativeStep_apply_ne treeId it removedDocId jacobian d hne

lemma foldl_leafDerivativeStep_mem (treeId it removedDocId : Nat)
    (jacobian : Nat → ℚ) {lids : List Nat} {L : Nat}
    (hnd : lids.Nodup) (hL : L ∈ lids) (d : Nat → ℚ) :
    (lids.foldl (ev.leafDerivativeStep treeId it removedDocId jacobian) d) L =
      (d L
        + (((ev.statsOf treeId).leavesDocId.getD L []).map
            (fun docId =>
              ((ev.statsOf treeId).formulaNumeratorMultiplier.getD it []).getD docId 0
                * jacobian docId)).sum
        + (if L = (ev.statsOf treeId).leafIndices.getD removedDocId 0
            then ((ev.statsOf treeId).formulaNumeratorAdding.getD it []).getD removedDocId 0
            else 0))
       * (-ev.learningRate
           / ((ev.statsOf treeId).formulaDenominators.getD it []).getD L 0) := by
  induction lids generalizing d with
  | nil => exact absurd hL (List.not_mem_nil L)
  | cons x xs ih =>
      rcases List.nodup_cons.mp hnd with ⟨hx, hnd'⟩
      rcases List.mem_cons.mp hL with rfl | hLxs
      · have hL' : L ∉ xs := hx
        rw [List.foldl_cons, ev.foldl_leafDerivativeStep_not_mem treeId it removedDocId jacobian hL',
          leafDerivativeStep_eq, upd_same]
      · have hne : L ≠ x := fun h => hx (h ▸ hLxs)
        rw [List.foldl_cons, ih hnd' hLxs,
          ev.leafDerivativeStep_apply_ne treeId it removedDocId jacobian d hne]

lemma updateLeavesDerivativesForTree_apply_mem
    (lids : List Nat) (removedDocId : Nat) (jacobian : Nat → ℚ) (treeId it : Nat)
    {L : Nat} (hnd : lids.Nodup) (hL : L ∈ lids) :
    ev.updateLeavesDerivativesForTree lids removedDocId jacobian treeId it L =
      ((((ev.statsOf treeId).leavesDocId.getD L []).map
          (fun docId =>
            ((ev.statsOf treeId).formulaNumeratorMultiplier.getD it []).getD docId 0
              * jacobian docId)).sum
        + (if L = (ev.statsOf treeId).leafIndices.getD removedDocId 0
            then ((ev.statsOf treeId).formulaNumeratorAdding.getD it []).getD removedDocId 0
            else 0))
       * (-ev.learningRate
           / ((ev.statsOf treeId).formulaDenominators.getD it []).getD L 0) := by
  by_cases hcor : (ev.statsOf treeId).leafIndices.getD removedDocId 0 ∈ lids
  · simp only [updateLeavesDerivativesForTree, if_pos hcor]
    rw [ev.foldl_leafDerivativeStep_mem treeId it removedDocId jacobian hnd hL]
    ring_nf
  · have hne : L ≠ (ev.statsOf treeId).leafIndices.getD removedDocId 0 :=
      fun h => hcor (h ▸ hL)
    simp only [updateLeavesDerivativesForTree, if_neg hcor]
    rw [upd_ne _ _ hne, ev.foldl_leafDerivativeStep_mem treeId it removedDocId jacobian hnd hL]
    ring_nf

lemma updateLeavesDerivativesForTree_apply_not_mem
    (lids : List Nat) (removedDocId : Nat) (jacobian : Nat → ℚ) (treeId it : Nat)
    {L : Nat} (hL : L ∉ lids)
    (hne : L ≠ (ev.statsOf treeId).leafIndices.getD removedDocId 0) :
    ev.updateLeavesDerivativesForTree lids removedDocId jacobian treeId it L = 0 := by
  by_cases hcor : (ev.statsOf treeId).leafIndices.getD removedDocId 0 ∈ lids
  · simp only [updateLeavesDerivativesForTree, if_pos hcor]
    exact ev.foldl_leafDerivativeStep_not_mem treeId it removedDocId jacobian hL _
  · simp only [updateLeavesDerivativesForTree, if_neg hcor]
    rw [upd_ne _ _ hne]
    exact ev.foldl_leafDerivativeStep_not_mem treeId it removedDocId jacobian hL _

lemma updateLeavesDerivativesForTree_apply_correction
    (lids : List Nat) (removedDocId : Nat) (jacobian : Nat → ℚ) (treeId it : Nat)
    (hr : (ev.statsOf treeId).leafIndices.getD removedDocId 0 ∉ lids) :
    ev.updateLeavesDerivativesForTree lids removedDocId jacobian treeId it
        ((ev.statsOf treeId).leafIndices.getD removedDocId 0) =
      (jacobian removedDocId
          * ((ev.statsOf treeId).formulaNumeratorMultiplier.getD it []).getD removedDocId 0
        + ((ev.statsOf treeId).formulaNumeratorAdding.getD it []).getD removedDocId 0)
       * (-ev.learningRate
           / ((ev.statsOf treeId).formulaDenominators.getD it []).getD
               ((ev.statsOf treeId).leafIndices.getD removedDocId 0) 0) := by
  simp only [updateLeavesDerivativesForTree, if_neg hr]
  rw [upd_same, ev.foldl_leafDerivativeStep_not_mem treeId it removedDocId jacobian hr]
  ring_nf

lemma foldl_bucket_add_count (bucket : List Nat) (v : ℚ) (j : Nat → ℚ) (x : Nat) :
    (bucket.foldl (fun j docId => upd j docId (j docId + v)) j) x
      = j x + (bucket.count x : ℚ) * v := by
  induction bucket generalizing j with
  | nil => simp
  | cons b bs ih =>
      rw [List.foldl_cons, ih]
      by_cases hx : x = b
      · subst hx
        rw [upd_same, List.count_cons]
        simp
        ring
      · have hbx : (b == x) = false := beq_eq_false_iff_ne.mpr (Ne.symm hx)
        rw [upd_ne _ _ hx, List.count_cons, hbx]
        simp

lemma foldl_jacobianLeafStep_sum (ev : TDocumentImportancesEvaluator)
    (treeId : Nat) (dv : Nat → ℚ) (lids : List Nat) (j : Nat → ℚ) (x : Nat) :
    (lids.foldl
      (fun j leafId =>
        ((ev.statsOf treeId).leavesDocId.getD leafId []).foldl
          (fun j docId => upd j docId (j docId + dv leafId)) j)
      j) x
      = j x
        + (lids.map (fun leafId =>
            (((ev.statsOf treeId).leavesDocId.getD leafId []).count x : ℚ) * dv leafId)).sum := by
  induction lids generalizing j with
  | nil => simp
  | cons L Ls ih =>
      rw [List.foldl_cons, ih, foldl_bucket_add_count]
      simp
      ring

lemma jacobianUpdate_apply (ev : TDocumentImportancesEvaluator)
    (treeId : Nat) (lids : List Nat) (removedDocId : Nat)
    (dv jacobian : Nat → ℚ) (x : Nat) :
    ev.jacobianUpdate treeId lids removedDocId dv jacobian x
      = jacobian x
        + (lids.map (fun leafId =>
            (((ev.statsOf treeId).leavesDocId.getD leafId []).count x : ℚ) * dv leafId)).sum
        + (if (ev.statsOf treeId).leafIndices.getD removedDocId 0 ∈ lids then 0
           else if x = removedDocId
             then dv ((ev.statsOf treeId).leafIndices.getD removedDocId 0) else 0) := by
  simp only [jacobianUpdate]
  by_cases hc : (ev.statsOf treeId).leafIndices.getD removedDocId 0 ∈ lids
  · rw [if_pos hc, if_pos hc, foldl_jacobianLeafStep_sum, add_zero]
  · rw [if_neg hc, if_neg hc]
    by_cases hx : x = removedDocId
    · subst hx
      rw [upd_same, foldl_jacobianLeafStep_sum, if_pos rfl]
    · rw [upd_ne _ _ hx, foldl_jacobianLeafStep_sum, if_neg hx, add_zero]

/-! Permutation invariance of the per-iteration computation in the order of
the selected leaves (used for the TopKLeaves = AllPoints refinement). -/

lemma leafDerivativeStep_comm (ev : TDocumentImportancesEvaluator)
    (treeId it removedDocId : Nat) (jacobian : Nat → ℚ)
    (d : Nat → ℚ) (a b : Nat) :
    ev.leafDerivativeStep treeId it removedDocId jacobian
        (ev.leafDerivativeStep treeId it removedDocId jacobian d a) b
      = ev.leafDerivativeStep treeId it removedDocId jacobian
          (ev.leafDerivativeStep treeId it removedDocId jacobian d b) a := by
  by_cases hab : a = b
  · subst hab; rfl
  · funext L
    simp only [leafDerivativeStep_eq, upd_apply]
    by_cases hLa : L = a <;> by_cases hLb : L = b <;>
      simp [hLa, hLb, hab, Ne.symm hab]

lemma updateLeavesDerivativesForTree_perm (ev : TDocumentImportancesEvaluator)
    {lids lids' : List Nat} (p : List.Perm lids lids')
    (removedDocId : Nat) (jacobian : Nat → ℚ) (treeId it : Nat) :
    ev.updateLeavesDerivativesForTree lids removedDocId jacobian treeId it
      = ev.updateLeavesDerivativesForTree lids' removedDocId jacobian treeId it := by
  simp only [updateLeavesDerivativesForTree]
  rw [foldl_perm_of_comm _ (ev.leafDerivativeStep_comm treeId it removedDocId jacobian) p]
  by_cases hc : (ev.statsOf treeId).leafIndices.getD removedDocId 0 ∈ lids
  · rw [if_pos hc, if_pos (p.mem_iff.mp hc)]
  · rw [if_neg hc, if_neg (fun h => hc (p.mem_iff.mpr h))]

lemma jacobianUpdate_perm (ev : TDocumentImportancesEvaluator)
    (treeId : Nat) {lids lids' : List Nat} (p : List.Perm lids lids')
    (removedDocId : Nat) (dv jacobian : Nat → ℚ) :
    ev.jacobianUpdate treeId lids removedDocId dv jacobian
      = ev.jacobianUpdate treeId lids' removedDocId dv jacobian := by
  funext x
  rw [jacobianUpdate_apply, jacobianUpdate_apply,
    (p.map (fun leafId =>
      (((ev.statsOf treeId).leavesDocId.getD leafId []).count x : ℚ) * dv leafId)).sum_eq]
  by_cases hc : (ev.statsOf treeId).leafIndices.getD removedDocId 0 ∈ lids
  · rw [if_pos hc, if_pos (p.mem_iff.mp hc)]
  · rw [if_neg hc, if_neg (fun h => hc (p.mem_iff.mpr h))]

/-! Shape of the selected-leaf list. -/

lemma getLeafIdToUpdate_allPoints (ev : TDocumentImportancesEvaluator)
    (treeId : Nat) (jacobian : Nat → ℚ)
    (h : ev.updateMethod.updateType = EUpdateType.AllPoints) :
    ev.getLeafIdToUpdate treeId jacobian = List.range (ev.leafCountOf treeId) := by
  simp only [getLeafIdToUpdate, h]

lemma getLeafIdToUpdate_topK (ev : TDocumentImportancesEvaluator)
    (treeId : Nat) (jacobian : Nat → ℚ)
    (h : ev.updateMethod.updateType = EUpdateType.TopKLeaves) :
    ev.getLeafIdToUpdate treeId jacobian
      = (sortByKeyDesc (ev.leafJacobians treeId jacobian)
          (List.range (ev.leafCountOf treeId))).take
            (min ev.updateMethod.topSize (ev.leafCountOf treeId)) := by
  simp only [getLeafIdToUpdate, h]

lemma getLeafIdToUpdate_topK_full_perm (ev : TDocumentImportancesEvaluator)
    (treeId : Nat) (jacobian : Nat → ℚ)
    (h : ev.updateMethod.updateType = EUpdateType.TopKLeaves)
    (hfull : ev.leafCountOf treeId ≤ ev.updateMethod.topSize) :
    List.Perm (ev.getLeafIdToUpdate treeId jacobian)
      (List.range (ev.leafCountOf treeId)) := by
  rw [getLeafIdToUpdate_topK ev treeId jacobian h]
  have hperm := sortByKeyDesc_perm (ev.leafJacobians treeId jacobian)
    (List.range (ev.leafCountOf treeId))
  have hlen : (sortByKeyDesc (ev.leafJacobians treeId jacobian)
      (List.range (ev.leafCountOf treeId))).length = ev.leafCountOf treeId := by
    rw [hperm.length_eq, List.length_range]
  rw [min_eq_right hfull, List.take_of_length_le (le_of_eq hlen)]
  exact hperm

lemma mem_getLeafIdToUpdate_lt (ev : TDocumentImportancesEvaluator)
    (treeId : Nat) (jacobian : Nat → ℚ) {L : Nat}
    (hL : L ∈ ev.getLeafIdToUpdate treeId jacobian) :
    L < ev.leafCountOf treeId := by
  rcases hu : ev.updateMethod.updateType with hAll | hTop
  · rw [getLeafIdToUpdate_allPoints ev treeId jacobian hu] at hL
    exact List.mem_range.mp hL
  · rw [getLeafIdToUpdate_topK ev treeId jacobian hu] at hL
    have hL' := List.mem_of_mem_take hL
    have := (sortByKeyDesc_perm (ev.leafJacobians treeId jacobian)
      (List.range (ev.leafCountOf treeId))).mem_iff.mp hL'
    exact List.mem_range.mp this

end TDocumentImportancesEvaluator

open TDocumentImportancesEvaluator

/-- C2: for every removed training document, tree, iteration and leaf `L`
selected for update (the selected list is duplicate-free in every call the
evaluator makes), the computed leaf derivative equals the bucket sum of
`FormulaNumeratorMultiplier[doc] * jacobian[doc]` over `LeavesDocId[L]`, plus
`FormulaNumeratorAdding[removedDocId]` when the removed document's leaf equals
`L`, all multiplied by `-LearningRate / FormulaDenominators[L]`. -/
theorem selectedLeafDerivative_formula
    (ev : TDocumentImportancesEvaluator) (lids : List Nat)
    (removedDocId : Nat) (jacobian : Nat → ℚ) (treeId it L : Nat)
    (hnd : lids.Nodup) (hL : L ∈ lids) :
    ev.updateLeavesDerivativesForTree lids removedDocId jacobian treeId it L
      = ((((ev.statsOf treeId).leavesDocId.getD L []).map
            (fun docId =>
              ((ev.statsOf treeId).formulaNumeratorMultiplier.getD it []).getD docId 0
                * jacobian docId)).sum
          + (if (ev.statsOf treeId).leafIndices.getD removedDocId 0 = L
              then ((ev.statsOf treeId).formulaNumeratorAdding.getD it []).getD removedDocId 0
              else 0))
        * (-ev.learningRate
            / ((ev.statsOf treeId).formulaDenominators.getD it []).getD L 0) := by
  rw [ev.updateLeavesDerivativesForTree_apply_mem lids removedDocId jacobian treeId it hnd hL]
  by_cases hc : L = (ev.statsOf treeId).leafIndices.getD removedDocId 0
  · rw [if_pos hc, if_pos hc.symm]
  · rw [if_neg hc, if_neg (fun h => hc h.symm)]

/-- Witness for C2 on the concrete example evaluator. -/
theorem selectedLeafDerivative_formula_witness :
    ([0, 1] : List Nat).Nodup ∧ (0 : Nat) ∈ ([0, 1] : List Nat) ∧
      exEv.updateLeavesDerivativesForTree [0, 1] 0 (fun _ => 1) 0 0 0
        = ((((exEv.statsOf 0).leavesDocId.getD 0 []).map
              (fun docId =>
                ((exEv.statsOf 0).formulaNumeratorMultiplier.getD 0 []).getD docId 0
                  * (fun _ => (1 : ℚ)) docId)).sum
            + (if (exEv.statsOf 0).leafIndices.getD 0 0 = 0
                then ((exEv.statsOf 0).formulaNumeratorAdding.getD 0 []).getD 0 0
                else 0))
          * (-exEv.learningRate
              / ((exEv.statsOf 0).formulaDenominators.getD 0 []).getD 0 0) :=
  ⟨by decide, by decide,
    selectedLeafDerivative_formula exEv [0, 1] 0 (fun _ => 1) 0 0 0 (by decide) (by decide)⟩

/-- C3: when the removed document's leaf is not among the selected leaves
(possible under TopKLeaves), that leaf still receives a derivative, computed
as `(jacobian[r] * FormulaNumeratorMultiplier[r] + FormulaNumeratorAdding[r])`
scaled by `-LearningRate / FormulaDenominators[r's leaf]`. -/
theorem removedDocLeafCorrection_formula
    (ev : TDocumentImportancesEvaluator) (lids : List Nat)
    (removedDocId : Nat) (jacobian : Nat → ℚ) (treeId it : Nat)
    (hr : (ev.statsOf treeId).leafIndices.getD removedDocId 0 ∉ lids) :
    ev.updateLeavesDerivativesForTree lids removedDocId jacobian treeId it
        ((ev.statsOf treeId).leafIndices.getD removedDocId 0)
      = (jacobian removedDocId
            * ((ev.statsOf treeId).formulaNumeratorMultiplier.getD it []).getD removedDocId 0
          + ((ev.statsOf treeId).formulaNumeratorAdding.getD it []).getD removedDocId 0)
        * (-ev.learningRate
            / ((ev.statsOf treeId).formulaDenominators.getD it []).getD
                ((ev.statsOf treeId).leafIndices.getD removedDocId 0) 0) :=
  ev.updateLeavesDerivativesForTree_apply_correction lids removedDocId jacobian treeId it hr

/-- Witness for C3: the removed document's leaf (leaf 0) is not in the
selected list `[1]` (as happens under TopKLeaves with TopSize 1 when leaf 1
ranks higher), yet it receives the correction derivative. -/
theorem removedDocLeafCorrection_formula_witness :
    (exEvTopK.statsOf 0).leafIndices.getD 0 0 ∉ ([1] : List Nat) ∧
      exEvTopK.updateLeavesDerivativesForTree [1] 0 (fun _ => 1) 0 0
          ((exEvTopK.statsOf 0).leafIndices.getD 0 0)
        = ((fun _ => (1 : ℚ)) 0
              * ((exEvTopK.statsOf 0).formulaNumeratorMultiplier.getD 0 []).getD 0 0
            + ((exEvTopK.statsOf 0).formulaNumeratorAdding.getD 0 []).getD 0 0)
          * (-exEvTopK.learningRate
              / ((exEvTopK.statsOf 0).formulaDenominators.getD 0 []).getD
                  ((exEvTopK.statsOf 0).leafIndices.getD 0 0) 0) :=
  ⟨by decide,
    removedDocLeafCorrection_formula exEvTopK [1] 0 (fun _ => 1) 0 0 (by decide)⟩

/-- C9: the per-iteration leaf-derivative vector starts zero-filled and only
selected leaves and (when the correction fires) the removed document's leaf
are ever written, so it is exactly zero at every other leaf. -/
theorem leafDerivativesFrame_zero
    (ev : TDocumentImportancesEvaluator) (lids : List Nat)
    (removedDocId : Nat) (jacobian : Nat → ℚ) (treeId it L : Nat)
    (hL : L ∉ lids)
    (hne : (ev.statsOf treeId).leafIndices.getD removedDocId 0 ∉ lids →
      L ≠ (ev.statsOf treeId).leafIndices.getD removedDocId 0) :
    ev.updateLeavesDerivativesForTree lids removedDocId jacobian treeId it L = 0 := by
  by_cases hcor : (ev.statsOf treeId).leafIndices.getD removedDocId 0 ∈ lids
  · exact ev.updateLeavesDerivativesForTree_apply_not_mem lids removedDocId jacobian treeId it
      hL (fun h => hL (h ▸ hcor))
  · exact ev.updateLeavesDerivativesForTree_apply_not_mem lids removedDocId jacobian treeId it
      hL (hne hcor)

/-- Witness for C9: leaf 3 is neither selected nor the removed document's
leaf, and its derivative is zero. -/
theorem leafDerivativesFrame_zero_witness :
    (3 : Nat) ∉ ([0, 1] : List Nat) ∧
      exEv.updateLeavesDerivativesForTree [0, 1] 0 (fun _ => 1) 0 0 3 = 0 :=
  ⟨by decide,
    leafDerivativesFrame_zero exEv [0, 1] 0 (fun _ => 1) 0 0 3 (by decide) (fun _ => by decide)⟩

/-- C10: the direct term `FormulaNumeratorAdding[removedDocId]` contributes to
the removed document's leaf derivative exactly once: inside the selected-leaf
loop when that leaf is selected, and in the correction branch otherwise; the
two branches are mutually exclusive. -/
theorem numeratorAddingContributesOnce
    (ev : TDocumentImportancesEvaluator) (lids : List Nat)
    (removedDocId : Nat) (jacobian : Nat → ℚ) (treeId it : Nat)
    (hnd : lids.Nodup) :
    ((ev.statsOf treeId).leafIndices.getD removedDocId 0 ∈ lids →
      ev.updateLeavesDerivativesForTree lids removedDocId jacobian treeId it
          ((ev.statsOf treeId).leafIndices.getD removedDocId 0)
        = ((((ev.statsOf treeId).leavesDocId.getD
                ((ev.statsOf treeId).leafIndices.getD removedDocId 0) []).map
              (fun docId =>
                ((ev.statsOf treeId).formulaNumeratorMultiplier.getD it []).getD docId 0
                  * jacobian docId)).sum
            + ((ev.statsOf treeId).formulaNumeratorAdding.getD it []).getD removedDocId 0)
          * (-ev.learningRate
              / ((ev.statsOf treeId).formulaDenominators.getD it []).getD
                  ((ev.statsOf treeId).leafIndices.getD removedDocId 0) 0)) ∧
    ((ev.statsOf treeId).leafIndices.getD removedDocId 0 ∉ lids →
      ev.updateLeavesDerivativesForTree lids removedDocId jacobian treeId it
          ((ev.statsOf treeId).leafIndices.getD removedDocId 0)
        = (jacobian removedDocId
              * ((ev.statsOf treeId).formulaNumeratorMultiplier.getD it []).getD removedDocId 0
            + ((ev.statsOf treeId).formulaNumeratorAdding.getD it []).getD removedDocId 0)
          * (-ev.learningRate
              / ((ev.statsOf treeId).formulaDenominators.getD it []).getD
                  ((ev.statsOf treeId).leafIndices.getD removedDocId 0) 0)) := by
  constructor
  · intro hmem
    rw [ev.updateLeavesDerivativesForTree_apply_mem lids removedDocId jacobian treeId it hnd hmem]
    rw [if_pos rfl]
  · intro hr
    exact ev.updateLeavesDerivativesForTree_apply_correction lids removedDocId jacobian treeId it hr

/-- Witness for C10 on the concrete example evaluator. -/
theorem numeratorAddingContributesOnce_witness :
    ([0, 1] : List Nat).Nodup ∧
      (((exEv.statsOf 0).leafIndices.getD 0 0 ∈ ([0, 1] : List Nat) →
        exEv.updateLeavesDerivativesForTree [0, 1] 0 (fun _ => 1) 0 0
            ((exEv.statsOf 0).leafIndices.getD 0 0)
          = ((((exEv.statsOf 0).leavesDocId.getD
                  ((exEv.statsOf 0).leafIndices.getD 0 0) []).map
                (fun docId =>
                  ((exEv.statsOf 0).formulaNumeratorMultiplier.getD 0 []).getD docId 0
                    * (fun _ => (1 : ℚ)) docId)).sum
              + ((exEv.statsOf 0).formulaNumeratorAdding.getD 0 []).getD 0 0)
            * (-exEv.learningRate
                / ((exEv.statsOf 0).formulaDenominators.getD 0 []).getD
                    ((exEv.statsOf 0).leafIndices.getD 0 0) 0)) ∧
      ((exEv.statsOf 0).leafIndices.getD 0 0 ∉ ([0, 1] : List Nat) →
        exEv.updateLeavesDerivativesForTree [0, 1] 0 (fun _ => 1) 0 0
            ((exEv.statsOf 0).leafIndices.getD 0 0)
          = ((fun _ => (1 : ℚ)) 0
                * ((exEv.statsOf 0).formulaNumeratorMultiplier.getD 0 []).getD 0 0
              + ((exEv.statsOf 0).formulaNumeratorAdding.getD 0 []).getD 0 0)
            * (-exEv.learningRate
                / ((exEv.statsOf 0).formulaDenominators.getD 0 []).getD
                    ((exEv.statsOf 0).leafIndices.getD 0 0) 0))) :=
  ⟨by decide, numeratorAddingContributesOnce exEv [0, 1] 0 (fun _ => 1) 0 0 (by decide)⟩

/-- C5: under TopKLeaves the selected list has length `min TopSize leafCount`
(TopSize is clamped to the tree's leaf count `2 ^ treeDepth`), lists distinct
leaves of the tree in descending order of aggregate absolute jacobian mass,
and every unselected leaf has mass at most that of every selected leaf. -/
theorem topKLeavesSelection_spec
    (ev : TDocumentImportancesEvaluator) (treeId : Nat) (jacobian : Nat → ℚ)
    (h : ev.updateMethod.updateType = EUpdateType.TopKLeaves) :
    (ev.getLeafIdToUpdate treeId jacobian).length
        = min ev.updateMethod.topSize (ev.leafCountOf treeId)
    ∧ List.Pairwise
        (fun a b => ev.leafJacobians treeId jacobian b ≤ ev.leafJacobians treeId jacobian a)
        (ev.getLeafIdToUpdate treeId jacobian)
    ∧ (ev.getLeafIdToUpdate treeId jacobian).Nodup
    ∧ (∀ L ∈ ev.getLeafIdToUpdate treeId jacobian, L < ev.leafCountOf treeId)
    ∧ (∀ a ∈ ev.getLeafIdToUpdate treeId jacobian,
        ∀ b < ev.leafCountOf treeId, b ∉ ev.getLeafIdToUpdate treeId jacobian →
          ev.leafJacobians treeId jacobian b ≤ ev.leafJacobians treeId jacobian a) := by
  have hperm := sortByKeyDesc_perm (ev.leafJacobians treeId jacobian)
    (List.range (ev.leafCountOf treeId))
  have hsorted := sortByKeyDesc_pairwise (ev.leafJacobians treeId jacobian)
    (List.range (ev.leafCountOf treeId))
  have hnodup : (sortByKeyDesc (ev.leafJacobians treeId jacobian)
      (List.range (ev.leafCountOf treeId))).Nodup :=
    hperm.nodup_iff.mpr (List.nodup_range (ev.leafCountOf treeId))
  have hlen : (sortByKeyDesc (ev.leafJacobians treeId jacobian)
      (List.range (ev.leafCountOf treeId))).length = ev.leafCountOf treeId := by
    rw [hperm.length_eq, List.length_range]
  rw [getLeafIdToUpdate_topK ev treeId jacobian h]
  refine ⟨?_, ?_, ?_, ?_, ?_⟩
  · rw [List.length_take, hlen]
    omega
  · exact hsorted.sublist (List.take_sublist _ _)
  · exact hnodup.sublist (List.take_sublist _ _)
  · intro L hL
    have := hperm.mem_iff.mp (List.mem_of_mem_take hL)
    exact List.mem_range.mp this
  · intro a ha b hb hbn
    have hbmem : b ∈ sortByKeyDesc (ev.leafJacobians treeId jacobian)
        (List.range (ev.leafCountOf treeId)) :=
      hperm.mem_iff.mpr (List.mem_range.mpr hb)
    set k := min ev.updateMethod.topSize (ev.leafCountOf treeId) with hk
    have hsplit := List.take_append_drop k (sortByKeyDesc (ev.leafJacobians treeId jacobian)
      (List.range (ev.leafCountOf treeId)))
    have hbdrop : b ∈ (sortByKeyDesc (ev.leafJacobians treeId jacobian)
        (List.range (ev.leafCountOf treeId))).drop k := by
      rcases List.mem_append.mp (hsplit ▸ hbmem) with hmem | hmem
      · exact absurd hmem hbn
      · exact hmem
    have hp := hsplit ▸ hsorted
    rcases List.pairwise_append.mp hp with ⟨-, -, hcross⟩
    exact hcross a ha b hbdrop

/-- Witness for C5 on the concrete TopKLeaves example evaluator. -/
theorem topKLeavesSelection_spec_witness :
    exEvTopK.updateMethod.updateType = EUpdateType.TopKLeaves ∧
      ((exEvTopK.getLeafIdToUpdate 0 (fun _ => 1)).length
          = min exEvTopK.updateMethod.topSize (exEvTopK.leafCountOf 0)
      ∧ List.Pairwise
          (fun a b => exEvTopK.leafJacobians 0 (fun _ => 1) b
            ≤ exEvTopK.leafJacobians 0 (fun _ => 1) a)
          (exEvTopK.getLeafIdToUpdate 0 (fun _ => 1))
      ∧ (exEvTopK.getLeafIdToUpdate 0 (fun _ => 1)).Nodup
      ∧ (∀ L ∈ exEvTopK.getLeafIdToUpdate 0 (fun _ => 1), L < exEvTopK.leafCountOf 0)
      ∧ (∀ a ∈ exEvTopK.getLeafIdToUpdate 0 (fun _ => 1),
          ∀ b < exEvTopK.leafCountOf 0, b ∉ exEvTopK.getLeafIdToUpdate 0 (fun _ => 1) →
            exEvTopK.leafJacobians 0 (fun _ => 1) b
              ≤ exEvTopK.leafJacobians 0 (fun _ => 1) a)) :=
  ⟨rfl, topKLeavesSelection_spec exEvTopK 0 (fun _ => 1) rfl⟩

/-! Pointwise form of the accumulation folds over index ranges. -/

lemma foldl_const {α β : Type} (l : List β) (a : α) : l.foldl (fun s _ => s) a = a := by
  induction l with
  | nil => rfl
  | cons x xs ih => exact ih

lemma getD_map_range {β : Type} (f : Nat → β) (dflt : β) {i n : Nat} (h : i < n) :
    ((List.range n).map f).getD i dflt = f i := by
  have hlen : i < ((List.range n).map f).length := by simpa using h
  rw [List.getD_eq_getElem _ _ hlen, List.getElem_map, List.getElem_range]

/-- C4: for every removed training document, tree and iteration, after the
leaf derivatives of the iteration are computed the jacobian update adds, to
each document, every selected leaf's derivative once per occurrence of the
document in that leaf's `LeavesDocId` bucket, and additionally the removed
document's leaf derivative to the removed document alone when that leaf was
not among the selected leaves. -/
theorem jacobianUpdate_formula
    (ev : TDocumentImportancesEvaluator) (removedDocId treeId it : Nat)
    (jacobian : Nat → ℚ) (x : Nat) :
    (ev.propagateStep removedDocId treeId it jacobian).2 x
      = jacobian x
        + ((ev.getLeafIdToUpdate treeId jacobian).map
            (fun leafId =>
              (((ev.statsOf treeId).leavesDocId.getD leafId []).count x : ℚ)
                * (ev.propagateStep removedDocId treeId it jacobian).1 leafId)).sum
        + (if (ev.statsOf treeId).leafIndices.getD removedDocId 0
              ∈ ev.getLeafIdToUpdate treeId jacobian
           then 0
           else if x = removedDocId
             then (ev.propagateStep removedDocId treeId it jacobian).1
                 ((ev.statsOf treeId).leafIndices.getD removedDocId 0)
             else 0) := by
  simp only [propagateStep]
  exact ev.jacobianUpdate_apply treeId _ removedDocId _ jacobian x

/-- C7: with `LeavesEstimationIterations = 0` every entry of the importance
matrix returned by `GetDocumentImportances` is zero. -/
theorem zeroIterations_importances_zero
    (ev : TDocumentImportancesEvaluator) (eli : List (List Nat)) (n : Nat)
    (ders : (Nat → ℚ) → (Nat → ℚ)) (t e : Nat)
    (h : ev.leavesEstimationIterations = 0) :
    ((ev.getDocumentImportances eli n ders).getD t []).getD e 0 = 0 := by
  by_cases ht : t < ev.docCount
  · simp only [getDocumentImportances]
    rw [getD_map_range _ _ ht]
    simp only [getDocumentImportancesForOneTrainDoc]
    by_cases he : e < n
    · rw [getD_map_range _ _ he]
      have hpd : ev.predictedDerivatives (ev.updateLeavesDerivatives t).1 eli n
          = fun _ => 0 := by
        simp only [predictedDerivatives, h, List.range_zero, List.foldl_nil]
        exact foldl_const _ _
      rw [hpd]
      simp
    · rw [List.getD_eq_default]
      simpa using Nat.le_of_not_lt he
  · have hrow : (ev.getDocumentImportances eli n ders).getD t [] = ([] : List ℚ) := by
      apply List.getD_eq_default
      simp only [getDocumentImportances]
      simpa using Nat.le_of_not_lt ht
    rw [hrow]
    rfl

/-- Witness for C7 on the zero-iterations example evaluator. -/
theorem zeroIterations_importances_zero_witness :
    exEv0.leavesEstimationIterations = 0 ∧
      ((exEv0.getDocumentImportances [[0, 1]] 2 (fun f => f)).getD 0 []).getD 0 0 = 0 :=
  ⟨rfl, zeroIterations_importances_zero exEv0 [[0, 1]] 2 (fun f => f) 0 0 rfl⟩

lemma predictedDerivatives_apply (ev : TDocumentImportancesEvaluator)
    (ld : List (List (Nat → ℚ))) (eli : List (List Nat)) (n : Nat) (e : Nat) :
    ev.predictedDerivatives ld eli n e
      = ∑ treeId ∈ Finset.range ev.treeCount,
          ∑ it ∈ Finset.range ev.leavesEstimationIterations,
            (if e < n
              then ((ld.getD treeId []).getD it (fun _ => 0)) ((eli.getD treeId []).getD e 0)
              else 0) := by
  have hinner : ∀ (treeId it : Nat) (f : Nat → ℚ),
      (List.range n).foldl
        (fun pd3 docId =>
          upd pd3 docId (pd3 docId +
            ((ld.getD treeId []).getD it (fun _ => 0))
              ((eli.getD treeId []).getD docId 0)))
        f
      = fun d => f d +
          (if d < n
            then ((ld.getD treeId []).getD it (fun _ => 0)) ((eli.getD treeId []).getD d 0)
            else 0) := by
    intro treeId it f
    rw [foldl_range_add _
      (fun k d => if d = k
        then ((ld.getD treeId []).getD it (fun _ => 0)) ((eli.getD treeId []).getD k 0)
        else 0)
      (fun f k => by
        funext d
        by_cases hd : d = k
        · subst hd; simp [upd_apply]
        · simp [upd_apply, hd]) n f]
    funext d
    rw [Finset.sum_ite_eq]
    simp [Finset.mem_range]
  have hmid : ∀ (treeId : Nat) (f : Nat → ℚ),
      (List.range ev.leavesEstimationIterations).foldl
        (fun pd2 it =>
          (List.range n).foldl
            (fun pd3 docId =>
              upd pd3 docId (pd3 docId +
                ((ld.getD treeId []).getD it (fun _ => 0))
                  ((eli.getD treeId []).getD docId 0)))
            pd2)
        f
      = fun d => f d +
          ∑ it ∈ Finset.range ev.leavesEstimationIterations,
            (if d < n
              then ((ld.getD treeId []).getD it (fun _ => 0)) ((eli.getD treeId []).getD d 0)
              else 0) := by
    intro treeId f
    exact foldl_range_add _
      (fun it d => if d < n
        then ((ld.getD treeId []).getD it (fun _ => 0)) ((eli.getD treeId []).getD d 0)
        else 0)
      (fun f it => hinner treeId it f) _ f
  have houter := foldl_range_add
    (fun pd treeId =>
      (List.range ev.leavesEstimationIterations).foldl
        (fun pd2 it =>
          (List.range n).foldl
            (fun pd3 docId =>
              upd pd3 docId (pd3 docId +
                ((ld.getD treeId []).getD it (fun _ => 0))
                  ((eli.getD treeId []).getD docId 0)))
            pd2)
        pd)
    (fun treeId d =>
      ∑ it ∈ Finset.range ev.leavesEstimationIterations,
        (if d < n
          then ((ld.getD treeId []).getD it (fun _ => 0)) ((eli.getD treeId []).getD d 0)
          else 0))
    (fun f treeId => hmid treeId f) ev.treeCount (fun _ => 0)
  simp only [predictedDerivatives]
  rw [houter]
  simp

/-- C1: for every training document `t` and evaluation document `e`, the
importance entry at row `t`, column `e` equals `FinalFirstDerivatives[e]`
times `predictedDerivative[e]`, the sum over all trees and iterations of
`leafDerivatives[tree][it][leafIndices[tree][e]]`. -/
theorem importanceEntry_formula
    (ev : TDocumentImportancesEvaluator) (eli : List (List Nat)) (n : Nat)
    (ders : (Nat → ℚ) → (Nat → ℚ)) (t e : Nat)
    (ht : t < ev.docCount) (he : e < n) :
    ((ev.getDocumentImportances eli n ders).getD t []).getD e 0
      = ev.updateFinalFirstDerivatives eli n ders e
        * ∑ treeId ∈ Finset.range ev.treeCount,
            ∑ it ∈ Finset.range ev.leavesEstimationIterations,
              (((ev.updateLeavesDerivatives t).1.getD treeId []).getD it (fun _ => 0))
                ((eli.getD treeId []).getD e 0) := by
  simp only [getDocumentImportances]
  rw [getD_map_range _ _ ht]
  simp only [getDocumentImportancesForOneTrainDoc]
  rw [getD_map_range _ _ he, predictedDerivatives_apply]
  simp only [he, if_true]

/-- Witness for C1 on the concrete example evaluator. -/
theorem importanceEntry_formula_witness :
    (0 : Nat) < exEv.docCount ∧ (0 : Nat) < 2 ∧
      ((exEv.getDocumentImportances [[0, 1]] 2 (fun f => f)).getD 0 []).getD 0 0
        = exEv.updateFinalFirstDerivatives [[0, 1]] 2 (fun f => f) 0
          * ∑ treeId ∈ Finset.range exEv.treeCount,
              ∑ it ∈ Finset.range exEv.leavesEstimationIterations,
                (((exEv.updateLeavesDerivatives 0).1.getD treeId []).getD it (fun _ => 0))
                  ((([[0, 1]] : List (List Nat)).getD treeId []).getD 0 0) :=
  ⟨by decide, by decide,
    importanceEntry_formula exEv [[0, 1]] 2 (fun f => f) 0 0 (by decide) (by decide)⟩

/-! Divisions performed by the leaf-derivative computation. -/

lemma getD_ne_zero_of_forall {l : List ℚ} {i : Nat} (hi : i < l.length)
    (h : ∀ x ∈ l, x ≠ 0) : l.getD i 0 ≠ 0 := by
  rw [List.getD_eq_getElem _ _ hi]
  exact h _ (List.getElem_mem hi)

lemma mem_denominatorsUsedForTree (ev : TDocumentImportancesEvaluator)
    {lids : List Nat} {removedDocId treeId it : Nat} {dnm : ℚ}
    (hd : dnm ∈ ev.denominatorsUsedForTree lids removedDocId treeId it) :
    ∃ L, (L ∈ lids ∨ L = (ev.statsOf treeId).leafIndices.getD removedDocId 0)
      ∧ dnm = ((ev.statsOf treeId).formulaDenominators.getD it []).getD L 0 := by
  simp only [denominatorsUsedForTree] at hd
  rcases List.mem_append.mp hd with hmem | hmem
  · rcases List.mem_map.mp hmem with ⟨L, hL, rfl⟩
    exact ⟨L, Or.inl hL, rfl⟩
  · by_cases hc : (ev.statsOf treeId).leafIndices.getD removedDocId 0 ∈ lids
    · rw [if_pos hc] at hmem
      exact absurd hmem (List.not_mem_nil dnm)
    · rw [if_neg hc] at hmem
      rcases List.mem_singleton.mp hmem with rfl
      exact ⟨(ev.statsOf treeId).leafIndices.getD removedDocId 0, Or.inr rfl, rfl⟩

lemma denominatorsUsedForTree_nonzero (ev : TDocumentImportancesEvaluator)
    {lids : List Nat} {removedDocId treeId it : Nat}
    (hlids : ∀ L ∈ lids, L < ev.leafCountOf treeId)
    (hlen : ev.leafCountOf treeId
      ≤ ((ev.statsOf treeId).formulaDenominators.getD it []).length)
    (hrl : (ev.statsOf treeId).leafIndices.getD removedDocId 0
      < ((ev.statsOf treeId).formulaDenominators.getD it []).length)
    (hnz : ∀ x ∈ (ev.statsOf treeId).formulaDenominators.getD it [], x ≠ 0) :
    ∀ dnm ∈ ev.denominatorsUsedForTree lids removedDocId treeId it, dnm ≠ 0 := by
  intro dnm hd
  rcases mem_denominatorsUsedForTree ev hd with ⟨L, hL, rfl⟩
  rcases hL with hL | rfl
  · exact getD_ne_zero_of_forall (lt_of_lt_of_le (hlids L hL) hlen) hnz
  · exact getD_ne_zero_of_forall hrl hnz

lemma denominatorsUsed_aux_inner (ev : TDocumentImportancesEvaluator)
    (removedDocId treeId : Nat)
    (hlen : ∀ it < ev.leavesEstimationIterations,
      ev.leafCountOf treeId
        ≤ ((ev.statsOf treeId).formulaDenominators.getD it []).length
      ∧ (ev.statsOf treeId).leafIndices.getD removedDocId 0
        < ((ev.statsOf treeId).formulaDenominators.getD it []).length)
    (hnz : ∀ it < ev.leavesEstimationIterations,
      ∀ x ∈ (ev.statsOf treeId).formulaDenominators.getD it [], x ≠ 0) :
    ∀ (its : List Nat), (∀ it ∈ its, it < ev.leavesEstimationIterations) →
      ∀ (acc : List ℚ × (Nat → ℚ)), (∀ dnm ∈ acc.1, dnm ≠ 0) →
        ∀ dnm ∈ (its.foldl
            (fun acc2 it =>
              (acc2.1 ++ ev.denominatorsUsedForTree
                  (ev.getLeafIdToUpdate treeId acc2.2) removedDocId treeId it,
               (ev.propagateStep removedDocId treeId it acc2.2).2))
            acc).1,
          dnm ≠ 0 := by
  intro its
  induction its with
  | nil => intro _ acc hacc; exact hacc
  | cons it its ih =>
      intro hmem acc hacc
      rw [List.foldl_cons]
      refine ih (fun i hi => hmem i (List.mem_cons_of_mem it hi)) _ ?_
      intro dnm hd
      rcases List.mem_append.mp hd with hd | hd
      · exact hacc dnm hd
      · have hit := hmem it (List.mem_cons_self it its)
        exact denominatorsUsedForTree_nonzero ev
          (fun L hL => ev.mem_getLeafIdToUpdate_lt treeId acc.2 hL)
          (hlen it hit).1 (hlen it hit).2 (hnz it hit) dnm hd

lemma denominatorsUsed_aux_outer (ev : TDocumentImportancesEvaluator)
    (removedDocId : Nat)
    (Hlen : ∀ treeId < ev.treeCount, ∀ it < ev.leavesEstimationIterations,
      ev.leafCountOf treeId
        ≤ ((ev.statsOf treeId).formulaDenominators.getD it []).length
      ∧ (ev.statsOf treeId).leafIndices.getD removedDocId 0
        < ((ev.statsOf treeId).formulaDenominators.getD it []).length)
    (Hnz : ∀ treeId < ev.treeCount, ∀ it < ev.leavesEstimationIterations,
      ∀ x ∈ (ev.statsOf treeId).formulaDenominators.getD it [], x ≠ 0) :
    ∀ (tids : List Nat), (∀ treeId ∈ tids, treeId < ev.treeCount) →
      ∀ (acc : List ℚ × (Nat → ℚ)), (∀ dnm ∈ acc.1, dnm ≠ 0) →
        ∀ dnm ∈ (tids.foldl
            (fun acc treeId =>
              (List.range ev.leavesEstimationIterations).foldl
                (fun acc2 it =>
                  (acc2.1 ++ ev.denominatorsUsedForTree
                      (ev.getLeafIdToUpdate treeId acc2.2) removedDocId treeId it,
                   (ev.propagateStep removedDocId treeId it acc2.2).2))
                acc)
            acc).1,
          dnm ≠ 0 := by
  intro tids
  induction tids with
  | nil => intro _ acc hacc; exact hacc
  | cons treeId tids ih =>
      intro hmem acc hacc
      rw [List.foldl_cons]
      refine ih (fun i hi => hmem i (List.mem_cons_of_mem treeId hi)) _ ?_
      have htid := hmem treeId (List.mem_cons_self treeId tids)
      exact denominatorsUsed_aux_inner ev removedDocId treeId
        (Hlen treeId htid) (Hnz treeId htid)
        (List.range ev.leavesEstimationIterations)
        (fun it hi => List.mem_range.mp hi) acc hacc

/-- C8: the core divides by `FormulaDenominators` entries without any
zero-denominator guard; under the precondition that every table entry that can
be read (every selected leaf id is below the table length, and so is the
removed document's leaf id, and all entries are nonzero) no division performed
during the leaf-derivative computation has a zero divisor. -/
theorem divisionsWellDefined
    (ev : TDocumentImportancesEvaluator) (removedDocId : Nat)
    (Hlen : ∀ treeId < ev.treeCount, ∀ it < ev.leavesEstimationIterations,
      ev.leafCountOf treeId
        ≤ ((ev.statsOf treeId).formulaDenominators.getD it []).length
      ∧ (ev.statsOf treeId).leafIndices.getD removedDocId 0
        < ((ev.statsOf treeId).formulaDenominators.getD it []).length)
    (Hnz : ∀ treeId < ev.treeCount, ∀ it < ev.leavesEstimationIterations,
      ∀ x ∈ (ev.statsOf treeId).formulaDenominators.getD it [], x ≠ 0) :
    ∀ dnm ∈ ev.denominatorsUsed removedDocId, dnm ≠ 0 := by
  intro dnm hd
  simp only [denominatorsUsed] at hd
  exact denominatorsUsed_aux_outer ev removedDocId Hlen Hnz
    (List.range ev.treeCount) (fun i hi => List.mem_range.mp hi)
    _ (fun x hx => absurd hx (List.not_mem_nil x)) dnm hd

/-- Witness for C8 on the concrete example evaluator. -/
theorem divisionsWellDefined_witness :
    (∀ treeId < exEv.treeCount, ∀ it < exEv.leavesEstimationIterations,
      exEv.leafCountOf treeId
        ≤ ((exEv.statsOf treeId).formulaDenominators.getD it []).length
      ∧ (exEv.statsOf treeId).leafIndices.getD 0 0
        < ((exEv.statsOf treeId).formulaDenominators.getD it []).length) ∧
    (∀ treeId < exEv.treeCount, ∀ it < exEv.leavesEstimationIterations,
      ∀ x ∈ (exEv.statsOf treeId).formulaDenominators.getD it [], x ≠ 0) ∧
    (∀ dnm ∈ exEv.denominatorsUsed 0, dnm ≠ 0) :=
  ⟨by decide, by decide, divisionsWellDefined exEv 0 (by decide) (by decide)⟩

/-! Refinement: TopKLeaves at full width coincides with AllPoints. -/

lemma propagateStep_full_eq (ev : TDocumentImportancesEvaluator) (k : Nat)
    (removedDocId treeId it : Nat) (jacobian : Nat → ℚ)
    (h : ev.leafCountOf treeId ≤ k) :
    propagateStep { ev with updateMethod := ⟨EUpdateType.TopKLeaves, k⟩ }
        removedDocId treeId it jacobian
      = propagateStep { ev with updateMethod := ⟨EUpdateType.AllPoints, k⟩ }
          removedDocId treeId it jacobian := by
  set evT : TDocumentImportancesEvaluator :=
    { ev with updateMethod := ⟨EUpdateType.TopKLeaves, k⟩ } with hevT
  set evA : TDocumentImportancesEvaluator :=
    { ev with updateMethod := ⟨EUpdateType.AllPoints, k⟩ } with hevA
  have hperm : List.Perm (evT.getLeafIdToUpdate treeId jacobian)
      (List.range (evT.leafCountOf treeId)) :=
    getLeafIdToUpdate_topK_full_perm evT treeId jacobian rfl h
  have hdv : evT.updateLeavesDerivativesForTree (evT.getLeafIdToUpdate treeId jacobian)
        removedDocId jacobian treeId it
      = evA.updateLeavesDerivativesForTree (evA.getLeafIdToUpdate treeId jacobian)
          removedDocId jacobian treeId it := by
    calc evT.updateLeavesDerivativesForTree (evT.getLeafIdToUpdate treeId jacobian)
          removedDocId jacobian treeId it
        = evT.updateLeavesDerivativesForTree (List.range (evT.leafCountOf treeId))
            removedDocId jacobian treeId it :=
          updateLeavesDerivativesForTree_perm evT hperm removedDocId jacobian treeId it
      _ = evA.updateLeavesDerivativesForTree (evA.getLeafIdToUpdate treeId jacobian)
            removedDocId jacobian treeId it := by
          rw [getLeafIdToUpdate_allPoints evA treeId jacobian rfl]
          rfl
  have hju : evT.jacobianUpdate treeId (evT.getLeafIdToUpdate treeId jacobian) removedDocId
        (evT.updateLeavesDerivativesForTree (evT.getLeafIdToUpdate treeId jacobian)
          removedDocId jacobian treeId it) jacobian
      = evA.jacobianUpdate treeId (evA.getLeafIdToUpdate treeId jacobian) removedDocId
          (evA.updateLeavesDerivativesForTree (evA.getLeafIdToUpdate treeId jacobian)
            removedDocId jacobian treeId it) jacobian := by
    calc evT.jacobianUpdate treeId (evT.getLeafIdToUpdate treeId jacobian) removedDocId
          (evT.updateLeavesDerivativesForTree (evT.getLeafIdToUpdate treeId jacobian)
            removedDocId jacobian treeId it) jacobian
        = evT.jacobianUpdate treeId (List.range (evT.leafCountOf treeId)) removedDocId
            (evT.updateLeavesDerivativesForTree (evT.getLeafIdToUpdate treeId jacobian)
              removedDocId jacobian treeId it) jacobian :=
          jacobianUpdate_perm evT treeId hperm removedDocId _ jacobian
      _ = evA.jacobianUpdate treeId (evA.getLeafIdToUpdate treeId jacobian) removedDocId
            (evA.updateLeavesDerivativesForTree (evA.getLeafIdToUpdate treeId jacobian)
              removedDocId jacobian treeId it) jacobian := by
          rw [hdv, getLeafIdToUpdate_allPoints evA treeId jacobian rfl]
          rfl
  simp only [propagateStep, Prod.mk.injEq]
  exact ⟨hdv, hju⟩

lemma updateLeavesDerivatives_full_eq (ev : TDocumentImportancesEvaluator) (k : Nat)
    (removedDocId : Nat)
    (H : ∀ treeId < ev.treeCount, ev.leafCountOf treeId ≤ k) :
    updateLeavesDerivatives { ev with updateMethod := ⟨EUpdateType.TopKLeaves, k⟩ }
        removedDocId
      = updateLeavesDerivatives { ev with updateMethod := ⟨EUpdateType.AllPoints, k⟩ }
          removedDocId := by
  simp only [updateLeavesDerivatives]
  apply List.foldl_ext
  intro acc treeId htid
  have hfull : ev.leafCountOf treeId ≤ k := H treeId (List.mem_range.mp htid)
  have hinner :
      (List.range ev.leavesEstimationIterations).foldl
        (fun acc2 it =>
          let step := propagateStep { ev with updateMethod := ⟨EUpdateType.TopKLeaves, k⟩ }
            removedDocId treeId it acc2.2
          (acc2.1 ++ [step.1], step.2))
        (([] : List (Nat → ℚ)), acc.2)
      = (List.range ev.leavesEstimationIterations).foldl
          (fun acc2 it =>
            let step := propagateStep { ev with updateMethod := ⟨EUpdateType.AllPoints, k⟩ }
              removedDocId treeId it acc2.2
            (acc2.1 ++ [step.1], step.2))
          (([] : List (Nat → ℚ)), acc.2) := by
    apply List.foldl_ext
    intro acc2 it _
    simp only
    rw [propagateStep_full_eq ev k removedDocId treeId it acc2.2 hfull]
  simp only at hinner ⊢
  rw [hinner]

/-- C6: with TopSize equal to every tree's full leaf count, TopKLeaves
produces an importance matrix exactly equal to the one produced by the
AllPoints policy (pruning becomes a no-op at full width). -/
theorem topKFullWidth_eq_allPoints
    (ev : TDocumentImportancesEvaluator) (k : Nat)
    (eli : List (List Nat)) (n : Nat) (ders : (Nat → ℚ) → (Nat → ℚ))
    (H : ∀ treeId < ev.treeCount, ev.leafCountOf treeId = k) :
    getDocumentImportances { ev with updateMethod := ⟨EUpdateType.TopKLeaves, k⟩ }
        eli n ders
      = getDocumentImportances { ev with updateMethod := ⟨EUpdateType.AllPoints, k⟩ }
          eli n ders := by
  simp only [getDocumentImportances]
  apply List.map_congr_left
  intro removedDocId _
  rw [updateLeavesDerivatives_full_eq ev k removedDocId
    (fun treeId htid => le_of_eq (H treeId htid))]
  rfl

/-- Witness for C6: on the example evaluator every tree has 2 leaves, and
TopKLeaves with TopSize 2 agrees with AllPoints. -/
theorem topKFullWidth_eq_allPoints_witness :
    (∀ treeId < exEv.treeCount, exEv.leafCountOf treeId = 2) ∧
      getDocumentImportances { exEv with updateMethod := ⟨EUpdateType.TopKLeaves, 2⟩ }
          [[0, 1]] 2 (fun f => f)
        = getDocumentImportances { exEv with updateMethod := ⟨EUpdateType.AllPoints, 2⟩ }
            [[0, 1]] 2 (fun f => f) :=
  ⟨by decide, topKFullWidth_eq_allPoints exEv 2 [[0, 1]] 2 (fun f => f) (by decide)⟩

end CatBoostDocImportance
